import Mathlib

/-!
Verification of the AciTrack backend (rommagon/acitracker_backend).

This file gives a shallow embedding, in Lean 4, of the parts of the
repository relevant to the frozen claims:

  * src/main.py : normalize_must_read_item, filter_and_sort_must_reads
  * src/calibration.py : get_next_item, submit_evaluation
  * src/embeddings.py : generate_embeddings_batch, chunk_texts_for_batching

Python dictionary values are modelled by the inductive type PyVal below;
machine floats do not occur in the modelled logic (relevancy scores are
integer-valued throughout the pipeline, and published-date timestamps are
modelled as integers through an abstract parser parameter).
-/

namespace AciTrack

open scoped List

/-- Model of a Python float value, as produced by JSON parsing: a
finite value (idealised as a rational number, into which every IEEE
double embeds exactly and order-faithfully), the two infinities that
json.load accepts as Infinity and -Infinity, and NaN. -/
inductive FloatVal where
  | finite : ℚ → FloatVal
  | inf : FloatVal
  | negInf : FloatVal
  | nan : FloatVal
deriving Repr, DecidableEq

/-- Model of a Python value as stored in a must-read item dictionary.
The constructor pynone models the Python singleton None; pydict models a
dict (only the entry list matters to the code under verification). -/
inductive PyVal where
  | pynone : PyVal
  | pybool : Bool → PyVal
  | pyint : Int → PyVal
  | pyfloat : FloatVal → PyVal
  | pystr : String → PyVal
  | pylist : List PyVal → PyVal
  | pydict : List (String × PyVal) → PyVal
deriving Repr

/-- Python truthiness, as used by the normalizer's if-tests:
None, False, 0, 0.0, the empty string, the empty list and the empty
dict are falsy; everything else (including nan and the infinities) is
truthy. -/
def pyTruthy : PyVal → Bool
  | PyVal.pynone => false
  | PyVal.pybool b => b
  | PyVal.pyint n => n != 0
  | PyVal.pyfloat (FloatVal.finite q) => q != 0
  | PyVal.pyfloat _ => true
  | PyVal.pystr s => s != ""
  | PyVal.pylist xs => !xs.isEmpty
  | PyVal.pydict kvs => !kvs.isEmpty

/-- The exact character set Python str.isspace() accepts (Unicode
whitespace as of the Unicode data CPython ships): the ASCII range tab
through carriage return, the information separators 28 to 31, space,
next line 0x85, no-break space 0xA0, ogham space 0x1680, the en-quad
through hair-space range 0x2000 to 0x200A, line separator 0x2028,
paragraph separator 0x2029, narrow no-break space 0x202F, mathematical
space 0x205F and ideographic space 0x3000.  str.strip() and
str.split() with no arguments use this set. -/
def pyIsSpace (c : Char) : Bool :=
  decide ((9 ≤ c.toNat ∧ c.toNat ≤ 13) ∨ (28 ≤ c.toNat ∧ c.toNat ≤ 31) ∨ c.toNat = 32 ∨
    c.toNat = 133 ∨ c.toNat = 160 ∨ c.toNat = 5760 ∨
    (8192 ≤ c.toNat ∧ c.toNat ≤ 8202) ∨ c.toNat = 8232 ∨ c.toNat = 8233 ∨
    c.toNat = 8239 ∨ c.toNat = 8287 ∨ c.toNat = 12288)

/-- Model of the Python string method strip with no arguments: remove
leading and trailing whitespace. -/
def pyStrip (s : String) : String :=
  String.mk (((s.data.dropWhile pyIsSpace).reverse.dropWhile pyIsSpace).reverse)

/-- The class of Python exceptions that the normalizer does not catch:
int() applied to an infinite float raises OverflowError, and the
clamping code catches only ValueError and TypeError. -/
inductive PyExc where
  | overflowError
deriving Repr, DecidableEq

/-- Truncation toward zero, the behaviour of Python int() on a finite
float (Int.div is T-division, rounding toward zero). -/
def ratTrunc (q : ℚ) : Int := Int.tdiv q.num (Int.ofNat q.den)

/-- Model of Python int(x) on a PyVal, parameterised by pyIntStr, the
model of int() on a string (Option.none models a raised ValueError;
CPython accepts underscore-grouped numerals, any Unicode decimal digits
and surrounding whitespace, so the string parse stays abstract).  The
outer Except.ok Option.none cases model raised ValueError or TypeError,
both caught by the normalizer; an infinite float raises OverflowError,
which is not caught. -/
def pyToIntE (pyIntStr : String → Option Int) : PyVal → Except PyExc (Option Int)
  | PyVal.pyint n => Except.ok (some n)
  | PyVal.pybool b => Except.ok (some (if b then 1 else 0))
  | PyVal.pyfloat (FloatVal.finite q) => Except.ok (some (ratTrunc q))
  | PyVal.pyfloat FloatVal.inf => Except.error PyExc.overflowError
  | PyVal.pyfloat FloatVal.negInf => Except.error PyExc.overflowError
  | PyVal.pyfloat FloatVal.nan => Except.ok Option.none
  | PyVal.pystr s => Except.ok (pyIntStr s)
  | _ => Except.ok Option.none

/-! Whitespace collapsing: " ".join(str(x).split()) in the source. -/

/-- The characters Python str.split() with no arguments splits on. -/
def isWsChar (c : Char) : Bool := pyIsSpace c

/-- Splits a character list into maximal runs of non-whitespace
characters, dropping all whitespace; the accumulator holds the current
word reversed.  Models Python str.split() with no arguments. -/
def splitWordsAux : List Char → List Char → List (List Char)
  | [], cur => if cur.isEmpty then [] else [cur.reverse]
  | c :: cs, cur =>
    if isWsChar c then
      if cur.isEmpty then splitWordsAux cs []
      else cur.reverse :: splitWordsAux cs []
    else splitWordsAux cs (c :: cur)

/-- The words of a character list. -/
def splitWords (cs : List Char) : List (List Char) := splitWordsAux cs []

/-- Joins words with single spaces: models " ".join(words). -/
def joinSpaces : List (List Char) → List Char
  | [] => []
  | [w] => w
  | w :: ws => w ++ ' ' :: joinSpaces ws

/-- Models " ".join(s.split()): collapse all whitespace runs to single
spaces and strip leading and trailing whitespace. -/
def collapseWs (s : String) : String := String.mk (joinSpaces (splitWords s.data))

/-- The display of a Python float: inf, -inf and nan as str() prints
them; an integral finite value with the trailing .0 Python shows.  The
decimal digit string of a non-integral value (Python prints the
shortest decimal that round-trips through the double) is not modelled
exactly; no verified property depends on those digits, only on the
display being a fixed function of the value. -/
def pyFloatRepr : FloatVal → String
  | FloatVal.inf => "inf"
  | FloatVal.negInf => "-inf"
  | FloatVal.nan => "nan"
  | FloatVal.finite q => if q.den = 1 then toString q.num ++ ".0" else toString q

mutual

/-- Model of Python repr() on a PyVal (as used inside container
displays); faithful for strings without quote or escape characters, which
is the only place it feeds the normalizer. -/
def pyRepr : PyVal → String
  | PyVal.pynone => "None"
  | PyVal.pybool b => if b then "True" else "False"
  | PyVal.pyint n => toString n
  | PyVal.pyfloat f => pyFloatRepr f
  | PyVal.pystr s => "'" ++ s ++ "'"
  | PyVal.pylist xs => "[" ++ pyReprList xs ++ "]"
  | PyVal.pydict kvs => "\x7b" ++ pyReprKvs kvs ++ "\x7d"

/-- Comma-separated reprs of a list of values. -/
def pyReprList : List PyVal → String
  | [] => ""
  | [x] => pyRepr x
  | x :: xs => pyRepr x ++ ", " ++ pyReprList xs

/-- Comma-separated reprs of the entries of a dict. -/
def pyReprKvs : List (String × PyVal) → String
  | [] => ""
  | [kv] => "'" ++ kv.1 ++ "': " ++ pyRepr kv.2
  | kv :: kvs => "'" ++ kv.1 ++ "': " ++ pyRepr kv.2 ++ ", " ++ pyReprKvs kvs

end

/-- Model of Python str(x). -/
def pyStr : PyVal → String
  | PyVal.pystr s => s
  | v => pyRepr v

/-!
Must-read records (src/main.py, filter_and_sort_must_reads).

A record entering filter_and_sort_must_reads is a normalized must-read
item; the function reads exactly two keys of the dictionary:
relevancy_score (None or an integer after normalization, hence modelled
as Option Int, with Option.none standing for both an absent key and a
None value since the code only tests item.get against None) and
published_date (an arbitrary value, modelled as Option PyVal where
Option.none means the key is absent, since item.get falls back to the
empty string only for an absent key).  The title field stands for the
rest of the record and distinguishes records with equal keys.
-/

/-- A must-read record as seen by filter_and_sort_must_reads. -/
structure MustReadRecord where
  title : String := ""
  relevancy_score : Option Int := Option.none
  published_date : Option PyVal := Option.none
deriving Repr

/-- The primary sort value: item.get relevancy_score with None treated
as -1. -/
def scoreVal (r : MustReadRecord) : Int := r.relevancy_score.getD (-1)

/-- Model of the Python expression published_date.replace applied to
the character Z on a character list: every occurrence of Z is replaced
by the six characters of the offset suffix +00:00. -/
def pyReplaceZ : List Char → List Char
  | [] => []
  | c :: cs =>
    if c = 'Z' then '+' :: '0' :: '0' :: ':' :: '0' :: '0' :: pyReplaceZ cs
    else c :: pyReplaceZ cs

/-- Model of the Python string method replace as called in the source:
published_date.replace of Z by +00:00. -/
def replaceZ (s : String) : String := String.mk (pyReplaceZ s.data)

/-- The secondary sort value of a published-date value, parameterised by
parseTs, the model of the composition of datetime.fromisoformat and
timestamp (Option.none models a raised ValueError).  A non-string value
raises AttributeError at the replace call, which the source catches, so
it also yields 0, the epoch. -/
def dateOfVal (parseTs : String → Option Int) : PyVal → Int
  | PyVal.pystr s => (parseTs (replaceZ s)).getD 0
  | _ => 0

/-- The secondary sort value of a record: item.get with default the
empty string, then safe ISO-timestamp parsing. -/
def dateVal (parseTs : String → Option Int) (r : MustReadRecord) : Int :=
  dateOfVal parseTs (r.published_date.getD (PyVal.pystr ""))

/-- The sort key of the source, (-relevancy_val, -date_val): ascending
order on this pair is relevancy descending then date descending. -/
def sortKey (parseTs : String → Option Int) (r : MustReadRecord) : Int × Int :=
  (-(scoreVal r), -(dateVal parseTs r))

/-- Lexicographic comparison of Python 2-tuples of integers, as used by
sorted on the key above. -/
def pairLe (p q : Int × Int) : Prop :=
  p.1 < q.1 ∨ (p.1 = q.1 ∧ p.2 ≤ q.2)

instance (p q : Int × Int) : Decidable (pairLe p q) := by
  unfold pairLe; infer_instance

/-- The record ordering induced by the sort key. -/
def keyLe (parseTs : String → Option Int) (r₁ r₂ : MustReadRecord) : Prop :=
  pairLe (sortKey parseTs r₁) (sortKey parseTs r₂)

instance (parseTs : String → Option Int) : DecidableRel (keyLe parseTs) := by
  unfold keyLe; infer_instance

/-- The filter predicate of step 1: the score is not None and at least
min_relevance. -/
def passesFilter (min_relevance : Int) (r : MustReadRecord) : Bool :=
  match r.relevancy_score with
  | some s => decide (min_relevance ≤ s)
  | Option.none => false

/-- Python sorted is the unique stable sort by a total preorder, so it
is modelled by insertion sort on keyLe. -/
def sortStep (parseTs : String → Option Int) (l : List MustReadRecord) : List MustReadRecord :=
  List.insertionSort (keyLe parseTs) l

/-- Model of filter_and_sort_must_reads of src/main.py: filter by
relevancy score unless include_zero, stable-sort by (-score, -date), and
keep the first limit records.  limit is a natural number, matching the
endpoint validation ge=1. -/
def filter_and_sort_must_reads (parseTs : String → Option Int)
    (items : List MustReadRecord) (min_relevance : Int) (include_zero : Bool)
    (limit : Nat) : List MustReadRecord :=
  let filtered := if include_zero then items else items.filter (passesFilter min_relevance)
  (sortStep parseTs filtered).take limit

/-!
The normalizer (src/main.py, normalize_must_read_item).

The item dictionary is modelled by a structure with one field of type
Option PyVal per key the function touches (Option.none means the key is
absent, some PyVal.pynone means the key is present with value None; this
matches the two distinct tests "field not in item" and "item.get(field)
is not None" in the source) plus a field holding every other entry of
the dictionary, which the function never reads or writes.

The Python function updates the dictionary in place and returns the same
object, so the value of the caller's argument after the call is exactly
the return value; the function is total (every exception it can meet is
caught).
-/

/-- The must-read item dictionary restricted to the keys that
normalize_must_read_item reads or writes, plus the untouched remainder
of the dictionary. -/
structure MRItem where
  relevancy_score : Option PyVal := Option.none
  relevancy_reason : Option PyVal := Option.none
  signals : Option PyVal := Option.none
  credibility_score : Option PyVal := Option.none
  credibility_reason : Option PyVal := Option.none
  credibility_confidence : Option PyVal := Option.none
  credibility_signals : Option PyVal := Option.none
  scored_at : Option PyVal := Option.none
  scoring_version : Option PyVal := Option.none
  scoring_model : Option PyVal := Option.none
  rest : List (String × PyVal) := []
deriving Repr

/-- One entry of the defaults loop: if the key is absent, store the
default, otherwise preserve the existing value. -/
def withDefault (dflt : PyVal) (v : Option PyVal) : Option PyVal :=
  some (v.getD dflt)

/-- The reason-normalization step applied to one key: when the present
value is truthy, replace it by the single-line whitespace-normalized
string " ".join(str(value).split()); otherwise leave the key alone. -/
def normalizeReason (v : Option PyVal) : Option PyVal :=
  let cur := v.getD PyVal.pynone
  if pyTruthy cur then some (PyVal.pystr (collapseWs (pyStr cur))) else v

/-- The score-clamping step applied to one key: when the value is not
None, convert with int() and clamp into the range 0 to 100; a
conversion that raises ValueError or TypeError (both caught) stores
None; the OverflowError an infinite float raises propagates. -/
def clampScore (pyIntStr : String → Option Int) (v : Option PyVal) :
    Except PyExc (Option PyVal) :=
  match v.getD PyVal.pynone with
  | PyVal.pynone => Except.ok v
  | cur =>
    match pyToIntE pyIntStr cur with
    | Except.ok (some score) => Except.ok (some (PyVal.pyint (max 0 (min 100 score))))
    | Except.ok Option.none => Except.ok (some PyVal.pynone)
    | Except.error e => Except.error e

/-- The signals step applied to one key: when the value read by
item.get is not a dict (including the absent case, where get yields
None), store the empty dict. -/
def ensureDict (v : Option PyVal) : Option PyVal :=
  match v.getD PyVal.pynone with
  | PyVal.pydict _ => v
  | _ => some (PyVal.pydict [])

/-- Model of normalize_must_read_item of src/main.py.  Each key of the
dictionary is touched by at most one step after the defaults loop, so
the in-place update sequence of the source (defaults for the ten listed
keys; reason whitespace normalization; relevancy then credibility score
clamping; signals dict coercion) acts independently per field.  The
only step that can raise is a clamp (OverflowError from int() on an
infinite float); the source then raises out of the function, modelled
by Except.error (the partially updated argument at the raise point is
not further modelled, as no claim concerns it). -/
def normalize_must_read_item (pyIntStr : String → Option Int) (item : MRItem) :
    Except PyExc MRItem :=
  match clampScore pyIntStr (withDefault PyVal.pynone item.relevancy_score) with
  | Except.error e => Except.error e
  | Except.ok rs =>
    match clampScore pyIntStr (withDefault PyVal.pynone item.credibility_score) with
    | Except.error e => Except.error e
    | Except.ok cs =>
      Except.ok
        { relevancy_score := rs
          relevancy_reason := normalizeReason (withDefault (PyVal.pystr "") item.relevancy_reason)
          signals := ensureDict (withDefault (PyVal.pydict []) item.signals)
          credibility_score := cs
          credibility_reason :=
            normalizeReason (withDefault (PyVal.pystr "") item.credibility_reason)
          credibility_confidence := withDefault PyVal.pynone item.credibility_confidence
          credibility_signals := ensureDict (withDefault (PyVal.pydict []) item.credibility_signals)
          scored_at := withDefault PyVal.pynone item.scored_at
          scoring_version := withDefault (PyVal.pystr "poc_v1") item.scoring_version
          scoring_model := withDefault PyVal.pynone item.scoring_model
          rest := item.rest }

/-!
Calibration (src/calibration.py and src/db.py).

Item identifiers (UUID columns) are modelled by natural numbers, and the
Python UUID constructor by an abstract parameter parseUUID from strings
to Option Nat (Option.none models a raised ValueError).  Relevancy
scores are integer-valued 0 to 100 throughout the pipeline, so the
nullable score column is modelled as Option Int.  The predicate
tags->>gold = true of the gold-first branch only matters as an opaque
test here, so it is a boolean field of the item.  ORDER BY random()
LIMIT 1 (query.first after func.random ordering) is modelled by an
abstract choice function pick on the list of rows the query denotes,
constrained by PickSound: the choice is a member of the list, and it is
absent exactly when the list is empty.
-/

/-- A row of the calibration_items table, restricted to the columns the
verified endpoints read.  final_relevancy_score is a nullable Float
column (db.py), modelled as an optional rational: every IEEE double the
schema admits embeds exactly and order-faithfully into ℚ. -/
structure CalItem where
  id : Nat
  publication_id : String := ""
  final_relevancy_score : Option ℚ := Option.none
  isGold : Bool := false
deriving Repr, DecidableEq

/-- A row of the human_evaluations table. -/
structure HumanEval where
  calibration_item_id : Nat
  evaluator : String
  human_score : Int
  reasoning : String
  confidence : Option String := Option.none
deriving Repr, DecidableEq

/-- The database state seen by the calibration endpoints. -/
structure DBState where
  items : List CalItem
  evals : List HumanEval
deriving Repr, DecidableEq

/-- Soundness of the random-row choice function: a choice is a row of
the queried list, and no choice exists exactly for the empty list. -/
def PickSound (pick : List CalItem → Option CalItem) : Prop :=
  (∀ l x, pick l = some x → x ∈ l) ∧ (∀ l, pick l = Option.none ↔ l = [])

/-- The identifiers of the items the evaluator has already rated: the
rated_ids subquery of get_next_item. -/
def ratedIds (db : DBState) (evaluator : String) : List Nat :=
  (db.evals.filter (fun ev => ev.evaluator == evaluator)).map
    (fun ev => ev.calibration_item_id)

/-- The base query of get_next_item: items whose id is not among the
evaluator's rated ids. -/
def unratedItems (db : DBState) (evaluator : String) : List CalItem :=
  db.items.filter (fun it => !(ratedIds db evaluator).contains it.id)

/-- The strategy query parameter (validated by the route pattern). -/
inductive Strategy where
  | balanced
  | gold_first
  | random
deriving Repr, DecidableEq

/-- The score buckets of the balanced branch, exactly as in the source:
pairs (low, high) filtered by low <= score < high. -/
def balancedBuckets : List (ℚ × ℚ) := [(0, 20), (20, 40), (40, 60), (60, 80), (80, 101)]

/-- The bucket filter of the balanced branch: a NULL score fails both
SQL comparisons, so only non-null scores inside the half-open range
pass. -/
def inBucket (b : ℚ × ℚ) (it : CalItem) : Bool :=
  match it.final_relevancy_score with
  | some s => decide (b.1 ≤ s) && decide (s < b.2)
  | Option.none => false

/-- Model of the GET /calibration/next handler get_next_item of
src/calibration.py (the api-key dependency is outside the modelled
logic). -/
def get_next_item (pick : List CalItem → Option CalItem) (db : DBState)
    (evaluator : String) (strategy : Strategy) : Option CalItem :=
  let base := unratedItems db evaluator
  match strategy with
  | Strategy.gold_first =>
    match pick (base.filter (fun it => it.isGold)) with
    | some it => some it
    | Option.none => pick base
  | Strategy.balanced =>
    match balancedBuckets.findSome? (fun b => pick (base.filter (inBucket b))) with
    | some it => some it
    | Option.none =>
      match pick (base.filter (fun it => it.final_relevancy_score.isNone)) with
      | some it => some it
      | Option.none => pick base
  | Strategy.random => pick base

/-- The POST /calibration/submit request body after pydantic validation
(evaluator nonempty, human_score between 0 and 100, reasoning nonempty,
confidence low, medium or high when present). -/
structure SubmitRequest where
  calibration_item_id : String
  evaluator : String
  human_score : Int
  reasoning : String
  confidence : Option String := Option.none
deriving Repr, DecidableEq

/-- The HTTP error outcomes of submit_evaluation: 400 invalid id
format, 404 unknown item, 409 duplicate rating. -/
inductive SubmitError where
  | invalidFormat
  | notFound
  | conflict
deriving Repr, DecidableEq

/-- Model of the POST /calibration/submit handler submit_evaluation of
src/calibration.py.  The pair returned is the outcome (on success, the
llm_score of the response body) together with the database state after
the call; an HTTPException raised before commit leaves the state
unchanged. -/
def submit_evaluation (parseUUID : String → Option Nat) (db : DBState)
    (req : SubmitRequest) : Except SubmitError (Option ℚ) × DBState :=
  match parseUUID req.calibration_item_id with
  | Option.none => (Except.error SubmitError.invalidFormat, db)
  | some item_uuid =>
    match db.items.find? (fun it => it.id == item_uuid) with
    | Option.none => (Except.error SubmitError.notFound, db)
    | some item =>
      match db.evals.find? (fun ev =>
          ev.calibration_item_id == item_uuid && ev.evaluator == req.evaluator) with
      | some _ => (Except.error SubmitError.conflict, db)
      | Option.none =>
        let evaluation : HumanEval :=
          { calibration_item_id := item_uuid
            evaluator := req.evaluator
            human_score := req.human_score
            reasoning := req.reasoning
            confidence := req.confidence }
        (Except.ok item.final_relevancy_score,
          { db with evals := db.evals ++ [evaluation] })

/-- The uniqueness invariant enforced by the database constraint
uq_calibration_evaluator of src/db.py: no two evaluation rows share the
pair (calibration_item_id, evaluator). -/
def EvalsUnique (evals : List HumanEval) : Prop :=
  evals.Pairwise (fun e₁ e₂ =>
    ¬(e₁.calibration_item_id = e₂.calibration_item_id ∧ e₁.evaluator = e₂.evaluator))

/-- The balanced strategy exactly as the claim words it: scan the five
buckets [0,20), [20,40), [40,60), [60,80), [80,100] in order and return
a random unrated item of the first nonempty bucket; then fall back to a
random unrated item with a null score; then to any remaining unrated
item; none only when nothing is unrated.  Stated over the same abstract
choice function as the code model, for comparison with
get_next_item. -/
def balancedSpecClaim (pick : List CalItem → Option CalItem) (db : DBState)
    (evaluator : String) : Option CalItem :=
  let base := unratedItems db evaluator
  let specBuckets : List (CalItem → Bool) :=
    [ fun it => (it.final_relevancy_score.map (fun s => decide (0 ≤ s ∧ s < 20))).getD false
    , fun it => (it.final_relevancy_score.map (fun s => decide (20 ≤ s ∧ s < 40))).getD false
    , fun it => (it.final_relevancy_score.map (fun s => decide (40 ≤ s ∧ s < 60))).getD false
    , fun it => (it.final_relevancy_score.map (fun s => decide (60 ≤ s ∧ s < 80))).getD false
    , fun it => (it.final_relevancy_score.map (fun s => decide (80 ≤ s ∧ s ≤ 100))).getD false ]
  match specBuckets.findSome? (fun p => pick (base.filter p)) with
  | some it => some it
  | Option.none =>
    match pick (base.filter (fun it => it.final_relevancy_score.isNone)) with
    | some it => some it
    | Option.none => pick base

/-- The balanced strategy as the claim reads once its top bucket is
amended to the half-open [80,101) the source uses; it differs from
balancedSpecClaim only at scores strictly between 100 and 101, and
agrees with it whenever scores stay within the documented 0 to 100
range. -/
def balancedSpec (pick : List CalItem → Option CalItem) (db : DBState)
    (evaluator : String) : Option CalItem :=
  let base := unratedItems db evaluator
  let specBuckets : List (CalItem → Bool) :=
    [ fun it => (it.final_relevancy_score.map (fun s => decide (0 ≤ s ∧ s < 20))).getD false
    , fun it => (it.final_relevancy_score.map (fun s => decide (20 ≤ s ∧ s < 40))).getD false
    , fun it => (it.final_relevancy_score.map (fun s => decide (40 ≤ s ∧ s < 60))).getD false
    , fun it => (it.final_relevancy_score.map (fun s => decide (60 ≤ s ∧ s < 80))).getD false
    , fun it => (it.final_relevancy_score.map (fun s => decide (80 ≤ s ∧ s < 101))).getD false ]
  match specBuckets.findSome? (fun p => pick (base.filter p)) with
  | some it => some it
  | Option.none =>
    match pick (base.filter (fun it => it.final_relevancy_score.isNone)) with
    | some it => some it
    | Option.none => pick base

/-!
Embeddings (src/embeddings.py).

Embedding vectors are opaque values of a type parameter.  The provider
call client.embeddings.create is modelled by an abstract function from
the submitted input list to the list of response items, each carrying
its provider-returned index and its embedding; a provider that embeds
every submitted text and may reorder its response returns a permutation
of the indexed embeddings of the input.  The retry decorator re-runs the
same pure computation, so it is not modelled; the missing-api-key error
path is outside the modelled logic (client is assumed available).
-/

/-- The error outcome of generate_embeddings_batch: a raised
EmbeddingError. -/
inductive EmbError where
  | allTextsEmpty
deriving Repr, DecidableEq

/-- Model of generate_embeddings_batch of src/embeddings.py: an empty
batch yields no vectors; texts are stripped and blank ones dropped; the
provider response items are sorted by their provider-returned index and
their embeddings returned in that order. -/
def generate_embeddings_batch {V : Type} (texts : List String)
    (respond : List String → List (Nat × V)) : Except EmbError (List V) :=
  if texts.isEmpty then Except.ok []
  else
    let cleaned := (texts.filter (fun t => t != "" && pyStrip t != "")).map (fun t => pyStrip t)
    if cleaned.isEmpty then Except.error EmbError.allTextsEmpty
    else
      let response := respond cleaned
      Except.ok ((List.insertionSort (fun a b => a.1 ≤ b.1) response).map (fun item => item.2))

/-- One iteration of the loop of chunk_texts_for_batching: append the
item to the current batch and flush the batch when it reaches
max_batch_size. -/
def chunkStep (max_batch_size : Nat)
    (acc : List (List (String × String)) × List (String × String))
    (item : String × String) : List (List (String × String)) × List (String × String) :=
  let current := acc.2 ++ [item]
  if max_batch_size ≤ current.length then (acc.1 ++ [current], []) else (acc.1, current)

/-- Model of chunk_texts_for_batching of src/embeddings.py: flush the
running batch whenever appending an item makes it reach
max_batch_size, and keep a final partial batch. -/
def chunk_texts_for_batching (items : List (String × String))
    (max_batch_size : Nat) : List (List (String × String)) :=
  let final := items.foldl (chunkStep max_batch_size) ([], [])
  if final.2.isEmpty then final.1 else final.1 ++ [final.2]

/-! Helper lemmas: the sort relation is a total preorder. -/

instance (parseTs : String → Option Int) : IsTotal MustReadRecord (keyLe parseTs) := by
  constructor
  intro a b
  unfold keyLe pairLe
  omega

instance (parseTs : String → Option Int) : IsTrans MustReadRecord (keyLe parseTs) := by
  constructor
  intro a b c hab hbc
  unfold keyLe pairLe at *
  omega

/-! Helper lemmas: whitespace collapsing is idempotent. -/

theorem splitWordsAux_good : ∀ (cs cur : List Char), (∀ c ∈ cur, isWsChar c = false) →
    ∀ w ∈ splitWordsAux cs cur, w ≠ [] ∧ ∀ c ∈ w, isWsChar c = false := by
  intro cs
  induction cs with
  | nil =>
    intro cur hcur w hw
    cases cur with
    | nil => simp [splitWordsAux] at hw
    | cons d cur =>
      have hw2 : w = (d :: cur).reverse := by simpa [splitWordsAux] using hw
      subst hw2
      refine ⟨by simp, ?_⟩
      intro c hc
      exact hcur c (List.mem_reverse.mp hc)
  | cons c cs ih =>
    intro cur hcur w hw
    cases hc : isWsChar c with
    | true =>
      cases cur with
      | nil =>
        simp only [splitWordsAux, hc, if_true, List.isEmpty_nil] at hw
        exact ih [] (by simp) w hw
      | cons d cur =>
        simp only [splitWordsAux, hc, if_true, List.isEmpty_cons, Bool.false_eq_true, if_false,
          List.mem_cons] at hw
        rcases hw with hw | hw
        · subst hw
          refine ⟨by simp, ?_⟩
          intro e he
          exact hcur e (List.mem_reverse.mp he)
        · exact ih [] (by simp) w hw
    | false =>
      simp only [splitWordsAux, hc, Bool.false_eq_true, if_false] at hw
      refine ih (c :: cur) ?_ w hw
      intro d hd
      rcases List.mem_cons.mp hd with rfl | hd
      · exact hc
      · exact hcur d hd

theorem splitWordsAux_word : ∀ (w cs cur : List Char), (∀ c ∈ w, isWsChar c = false) →
    splitWordsAux (w ++ cs) cur = splitWordsAux cs (w.reverse ++ cur) := by
  intro w
  induction w with
  | nil => intro cs cur _; simp
  | cons c w ih =>
    intro cs cur hw
    have hc : isWsChar c = false := hw c (List.mem_cons_self c w)
    simp only [List.cons_append, splitWordsAux, hc, Bool.false_eq_true, if_false,
      List.reverse_cons, List.append_assoc, List.singleton_append]
    exact ih cs (c :: cur) (fun d hd => hw d (List.mem_cons_of_mem c hd))

theorem splitWords_joinSpaces : ∀ ws : List (List Char),
    (∀ w ∈ ws, w ≠ [] ∧ ∀ c ∈ w, isWsChar c = false) →
    splitWords (joinSpaces ws) = ws := by
  intro ws
  induction ws with
  | nil => intro _; rfl
  | cons w ws ih =>
    intro h
    have hw := h w (List.mem_cons_self w ws)
    cases ws with
    | nil =>
      show splitWordsAux (joinSpaces [w]) [] = [w]
      have hjoin : joinSpaces [w] = w ++ [] := by simp [joinSpaces]
      rw [hjoin, splitWordsAux_word w [] [] hw.2, List.append_nil]
      cases hrev : w.reverse with
      | nil => exact absurd (by simpa using congrArg List.reverse hrev) hw.1
      | cons d cur =>
        show (if (d :: cur).isEmpty then ([] : List (List Char)) else [(d :: cur).reverse]) = [w]
        rw [← hrev]
        simp [hw.1]
    | cons w' ws' =>
      have hspace : isWsChar ' ' = true := by decide
      show splitWordsAux (joinSpaces (w :: w' :: ws')) [] = w :: w' :: ws'
      have hjoin : joinSpaces (w :: w' :: ws') = w ++ (' ' :: joinSpaces (w' :: ws')) := rfl
      rw [hjoin, splitWordsAux_word w _ [] hw.2, List.append_nil]
      cases hrev : w.reverse with
      | nil => exact absurd (by simpa using congrArg List.reverse hrev) hw.1
      | cons d cur =>
        show splitWordsAux (' ' :: joinSpaces (w' :: ws')) (d :: cur) = w :: w' :: ws'
        have hstep : splitWordsAux (' ' :: joinSpaces (w' :: ws')) (d :: cur) =
            (d :: cur).reverse :: splitWordsAux (joinSpaces (w' :: ws')) [] := by
          simp [splitWordsAux, hspace]
        rw [hstep, ← hrev, List.reverse_reverse]
        exact congrArg (w :: ·) (ih (fun u hu => h u (List.mem_cons_of_mem w hu)))

theorem splitWords_good (cs : List Char) :
    ∀ w ∈ splitWords cs, w ≠ [] ∧ ∀ c ∈ w, isWsChar c = false :=
  splitWordsAux_good cs [] (by simp)

/-! Helper lemmas: stability of insertion sort.  Filtering the sorted
list down to the elements of one equivalence class of the sort relation
yields those elements in their original order. -/

theorem filter_orderedInsert_pos {α : Type} (r : α → α → Prop) [DecidableRel r]
    (p : α → Bool) (x : α) (hx : p x = true) (hkey : ∀ b, p b = true → r x b) :
    ∀ l : List α, (List.orderedInsert r x l).filter p = x :: l.filter p := by
  intro l
  induction l with
  | nil => simp [List.orderedInsert, hx]
  | cons b l ih =>
    by_cases hr : r x b
    · simp [List.orderedInsert, hr, hx]
    · have hpb : p b = false := by
        cases hb : p b with
        | false => rfl
        | true => exact absurd (hkey b hb) hr
      simp [List.orderedInsert, hr, hpb, ih]

theorem filter_orderedInsert_neg {α : Type} (r : α → α → Prop) [DecidableRel r]
    (p : α → Bool) (x : α) (hx : p x = false) :
    ∀ l : List α, (List.orderedInsert r x l).filter p = l.filter p := by
  intro l
  induction l with
  | nil => simp [List.orderedInsert, hx]
  | cons b l ih =>
    by_cases hr : r x b
    · simp [List.orderedInsert, hr, hx]
    · show List.filter p (if r x b then x :: b :: l else b :: List.orderedInsert r x l) =
        List.filter p (b :: l)
      rw [if_neg hr, List.filter_cons, List.filter_cons, ih]

theorem filter_insertionSort {α : Type} (r : α → α → Prop) [DecidableRel r]
    (p : α → Bool) (hclass : ∀ a b, p a = true → p b = true → r a b) :
    ∀ l : List α, (List.insertionSort r l).filter p = l.filter p := by
  intro l
  induction l with
  | nil => rfl
  | cons x l ih =>
    show (List.orderedInsert r x (List.insertionSort r l)).filter p = (x :: l).filter p
    cases hx : p x with
    | true =>
      rw [filter_orderedInsert_pos r p x hx (fun b hb => hclass x b hx hb), ih]
      simp [hx]
    | false =>
      rw [filter_orderedInsert_neg r p x hx, ih]
      simp [hx]

/-! Helper lemmas: sorting a permutation of an enumerated list by index
recovers the enumerated list. -/

theorem sorted_lt_fst_enum {V : Type} (l : List V) :
    (List.enum l).Pairwise (fun a b => a.1 < b.1) := by
  have h := List.pairwise_lt_range l.length
  have hmap : (List.enum l).map Prod.fst = List.range l.length := List.enum_map_fst l
  have := hmap ▸ h
  exact (List.pairwise_map.mp this)

theorem insertionSort_index_of_perm_enum {V : Type} (l : List V)
    (resp : List (Nat × V)) (h : resp ~ List.enum l) :
    List.insertionSort (fun a b => a.1 ≤ b.1) resp = List.enum l := by
  haveI : IsTotal (Nat × V) (fun a b => a.1 ≤ b.1) := ⟨fun a b => Nat.le_total a.1 b.1⟩
  haveI : IsTrans (Nat × V) (fun a b => a.1 ≤ b.1) := ⟨fun a b c => Nat.le_trans⟩
  haveI : IsAntisymm (Nat × V) (fun a b => a.1 < b.1) :=
    ⟨fun a b h1 h2 => absurd h2 (Nat.lt_asymm h1)⟩
  have hperm : List.insertionSort (fun a b => a.1 ≤ b.1) resp ~ List.enum l :=
    (List.perm_insertionSort _ resp).trans h
  have hle : (List.insertionSort (fun a b => a.1 ≤ b.1) resp).Pairwise (fun a b => a.1 ≤ b.1) :=
    List.sorted_insertionSort _ resp
  have hnodup : (List.insertionSort (fun a b => a.1 ≤ b.1) resp).Pairwise
      (fun a b => a.1 ≠ b.1) := by
    have h1 : ((List.insertionSort (fun a b => a.1 ≤ b.1) resp).map Prod.fst) ~
        (List.enum l).map Prod.fst := hperm.map Prod.fst
    have h2 : ((List.enum l).map Prod.fst).Nodup := by
      rw [List.enum_map_fst]
      exact List.nodup_range l.length
    exact List.pairwise_map.mp (h2.perm h1.symm)
  have hlt : (List.insertionSort (fun a b => a.1 ≤ b.1) resp).Pairwise
      (fun a b => a.1 < b.1) :=
    (hle.and hnodup).imp (fun h => Nat.lt_of_le_of_ne h.1 h.2)
  exact List.eq_of_perm_of_sorted hperm hlt (sorted_lt_fst_enum l)

theorem collapseWs_idem (s : String) : collapseWs (collapseWs s) = collapseWs s := by
  show String.mk (joinSpaces (splitWords (String.mk (joinSpaces (splitWords s.data))).data)) = _
  rw [show (String.mk (joinSpaces (splitWords s.data))).data = joinSpaces (splitWords s.data) from rfl,
    splitWords_joinSpaces (splitWords s.data) (splitWords_good s.data)]
  rfl

/-! Helper lemmas: invariants of the chunking fold. -/

theorem chunkStep_fold_size (max_batch_size : Nat) (hmax : 1 ≤ max_batch_size) :
    ∀ (items : List (String × String))
      (acc : List (List (String × String)) × List (String × String)),
      (∀ b ∈ acc.1, b.length ≤ max_batch_size) → acc.2.length < max_batch_size →
      (∀ b ∈ (items.foldl (chunkStep max_batch_size) acc).1, b.length ≤ max_batch_size) ∧
        (items.foldl (chunkStep max_batch_size) acc).2.length < max_batch_size := by
  intro items
  induction items with
  | nil => intro acc h1 h2; exact ⟨h1, h2⟩
  | cons item items ih =>
    intro acc h1 h2
    rw [List.foldl_cons]
    by_cases hfull : max_batch_size ≤ acc.2.length + 1
    · have hstep : chunkStep max_batch_size acc item = (acc.1 ++ [acc.2 ++ [item]], []) := by
        simp [chunkStep, hfull]
      rw [hstep]
      refine ih _ ?_ ?_
      · intro b hb
        rcases List.mem_append.mp hb with hb | hb
        · exact h1 b hb
        · have hb2 : b = acc.2 ++ [item] := by simpa using hb
          subst hb2
          simp only [List.length_append, List.length_cons, List.length_nil]
          omega
      · simpa using hmax
    · have hstep : chunkStep max_batch_size acc item = (acc.1, acc.2 ++ [item]) := by
        simp [chunkStep, hfull]
      rw [hstep]
      refine ih _ h1 ?_
      simp only [List.length_append, List.length_cons, List.length_nil]
      omega

theorem chunkStep_fold_join (max_batch_size : Nat) :
    ∀ (items : List (String × String))
      (acc : List (List (String × String)) × List (String × String)),
      (items.foldl (chunkStep max_batch_size) acc).1.flatten ++
        (items.foldl (chunkStep max_batch_size) acc).2 = acc.1.flatten ++ acc.2 ++ items := by
  intro items
  induction items with
  | nil => intro acc; simp
  | cons item items ih =>
    intro acc
    rw [List.foldl_cons, ih]
    by_cases hfull : max_batch_size ≤ acc.2.length + 1
    · have hstep : chunkStep max_batch_size acc item = (acc.1 ++ [acc.2 ++ [item]], []) := by
        simp [chunkStep, hfull]
      rw [hstep]
      simp
    · have hstep : chunkStep max_batch_size acc item = (acc.1, acc.2 ++ [item]) := by
        simp [chunkStep, hfull]
      rw [hstep]
      simp

/-! Helper lemmas: each per-field step of the normalizer is idempotent. -/

theorem withDefault_again (d : PyVal) (v : Option PyVal) :
    withDefault d (withDefault d v) = withDefault d v := by
  cases v <;> rfl

theorem clampScore_eval (pyIntStr : String → Option Int) (x : PyVal) (hx : x ≠ PyVal.pynone) :
    clampScore pyIntStr (withDefault PyVal.pynone (some x)) =
      match pyToIntE pyIntStr x with
      | Except.ok (some score) => Except.ok (some (PyVal.pyint (max 0 (min 100 score))))
      | Except.ok Option.none => Except.ok (some PyVal.pynone)
      | Except.error e => Except.error e := by
  cases x with
  | pynone => exact absurd rfl hx
  | pybool b => rfl
  | pyint n => rfl
  | pyfloat f => rfl
  | pystr s => rfl
  | pylist xs => rfl
  | pydict kvs => rfl

theorem clampScore_ok_shape (pyIntStr : String → Option Int) (v : Option PyVal)
    (w : Option PyVal) (h : clampScore pyIntStr (withDefault PyVal.pynone v) = Except.ok w) :
    w = some PyVal.pynone ∨ ∃ n : Int, w = some (PyVal.pyint (max 0 (min 100 n))) := by
  cases v with
  | none => cases h; exact Or.inl rfl
  | some x =>
    cases x with
    | pynone => cases h; exact Or.inl rfl
    | pybool b => cases h; exact Or.inr ⟨if b then 1 else 0, rfl⟩
    | pyint n => cases h; exact Or.inr ⟨n, rfl⟩
    | pyfloat f =>
      cases f with
      | finite q => cases h; exact Or.inr ⟨ratTrunc q, rfl⟩
      | inf => exact Except.noConfusion h
      | negInf => exact Except.noConfusion h
      | nan => cases h; exact Or.inl rfl
    | pystr s =>
      rw [clampScore_eval pyIntStr (PyVal.pystr s) (by simp)] at h
      cases hp : pyIntStr s with
      | none =>
        rw [show pyToIntE pyIntStr (PyVal.pystr s) = Except.ok (pyIntStr s) from rfl, hp] at h
        cases h
        exact Or.inl rfl
      | some n =>
        rw [show pyToIntE pyIntStr (PyVal.pystr s) = Except.ok (pyIntStr s) from rfl, hp] at h
        cases h
        exact Or.inr ⟨n, rfl⟩
    | pylist xs => cases h; exact Or.inl rfl
    | pydict kvs => cases h; exact Or.inl rfl

theorem clampScore_again (pyIntStr : String → Option Int) (w : Option PyVal)
    (h : w = some PyVal.pynone ∨ ∃ n : Int, w = some (PyVal.pyint (max 0 (min 100 n)))) :
    clampScore pyIntStr (withDefault PyVal.pynone w) = Except.ok w := by
  rcases h with rfl | ⟨n, rfl⟩
  · rfl
  · show Except.ok (some (PyVal.pyint (max 0 (min 100 (max 0 (min 100 n)))))) = _
    have h2 : max (0 : Int) (min 100 (max 0 (min 100 n))) = max 0 (min 100 n) := by omega
    rw [h2]

theorem clampScore_ok_of_not_inf (pyIntStr : String → Option Int) (v : Option PyVal)
    (h : ∀ x, v = some x →
      x ≠ PyVal.pyfloat FloatVal.inf ∧ x ≠ PyVal.pyfloat FloatVal.negInf) :
    ∃ w, clampScore pyIntStr (withDefault PyVal.pynone v) = Except.ok w := by
  cases v with
  | none => exact ⟨some PyVal.pynone, rfl⟩
  | some x =>
    cases x with
    | pynone => exact ⟨some PyVal.pynone, rfl⟩
    | pybool b => exact ⟨_, rfl⟩
    | pyint n => exact ⟨_, rfl⟩
    | pyfloat f =>
      cases f with
      | finite q => exact ⟨_, rfl⟩
      | inf => exact absurd rfl (h _ rfl).1
      | negInf => exact absurd rfl (h _ rfl).2
      | nan => exact ⟨some PyVal.pynone, rfl⟩
    | pystr s =>
      rw [clampScore_eval pyIntStr (PyVal.pystr s) (by simp),
        show pyToIntE pyIntStr (PyVal.pystr s) = Except.ok (pyIntStr s) from rfl]
      cases hp : pyIntStr s with
      | none => exact ⟨some PyVal.pynone, rfl⟩
      | some n => exact ⟨_, rfl⟩
    | pylist xs => exact ⟨some PyVal.pynone, rfl⟩
    | pydict kvs => exact ⟨some PyVal.pynone, rfl⟩

theorem normalizeReason_step_idem (v : Option PyVal) :
    normalizeReason (withDefault (PyVal.pystr "") (normalizeReason (withDefault (PyVal.pystr "") v))) =
      normalizeReason (withDefault (PyVal.pystr "") v) := by
  set cur := v.getD (PyVal.pystr "") with hcur
  have hinner : withDefault (PyVal.pystr "") v = some cur := by
    cases v <;> rfl
  rw [hinner]
  show normalizeReason (withDefault (PyVal.pystr "") (normalizeReason (some cur))) =
    normalizeReason (some cur)
  by_cases ht : pyTruthy cur = true
  · have h1 : normalizeReason (some cur) = some (PyVal.pystr (collapseWs (pyStr cur))) := by
      simp [normalizeReason, Option.getD, ht]
    rw [h1]
    set c := collapseWs (pyStr cur) with hc
    show normalizeReason (some (PyVal.pystr c)) = some (PyVal.pystr c)
    by_cases hc0 : c = ""
    · simp [normalizeReason, Option.getD, pyTruthy, hc0]
    · have ht2 : pyTruthy (PyVal.pystr c) = true := by
        simp [pyTruthy, hc0]
      have h2 : normalizeReason (some (PyVal.pystr c)) =
          some (PyVal.pystr (collapseWs (pyStr (PyVal.pystr c)))) := by
        simp [normalizeReason, Option.getD, ht2]
      rw [h2]
      show some (PyVal.pystr (collapseWs c)) = some (PyVal.pystr c)
      rw [hc, collapseWs_idem]
  · have hf : pyTruthy cur = false := by
      cases h : pyTruthy cur
      · rfl
      · exact absurd h ht
    have h1 : normalizeReason (some cur) = some cur := by
      simp [normalizeReason, Option.getD, hf]
    rw [h1]
    show normalizeReason (some cur) = some cur
    exact h1

theorem ensureDict_step_idem (v : Option PyVal) :
    ensureDict (withDefault (PyVal.pydict []) (ensureDict (withDefault (PyVal.pydict []) v))) =
      ensureDict (withDefault (PyVal.pydict []) v) := by
  have hdict : ∃ kvs, ensureDict (withDefault (PyVal.pydict []) v) = some (PyVal.pydict kvs) := by
    cases v with
    | none => exact ⟨[], rfl⟩
    | some x =>
      cases x with
      | pydict kvs => exact ⟨kvs, rfl⟩
      | pynone => exact ⟨[], rfl⟩
      | pybool b => exact ⟨[], rfl⟩
      | pyint n => exact ⟨[], rfl⟩
      | pyfloat f => exact ⟨[], rfl⟩
      | pystr s => exact ⟨[], rfl⟩
      | pylist xs => exact ⟨[], rfl⟩
  obtain ⟨kvs, hk⟩ := hdict
  rw [hk]
  rfl

/-! Helper lemmas: membership in the unrated-items pool. -/

theorem mem_unratedItems {db : DBState} {evaluator : String} {it : CalItem}
    (h : it ∈ unratedItems db evaluator) :
    it ∈ db.items ∧ ∀ ev ∈ db.evals, ev.evaluator = evaluator →
      ev.calibration_item_id ≠ it.id := by
  obtain ⟨hmem, hflt⟩ := List.mem_filter.mp h
  have hnot : it.id ∉ ratedIds db evaluator := by simpa using hflt
  refine ⟨hmem, ?_⟩
  intro ev hev heval heq
  exact hnot (List.mem_map.mpr ⟨ev, List.mem_filter.mpr ⟨hev, by simp [heval]⟩, heq⟩)

theorem unratedItems_eq_nil_iff (db : DBState) (evaluator : String) :
    unratedItems db evaluator = [] ↔
      ∀ it ∈ db.items, ∃ ev ∈ db.evals, ev.evaluator = evaluator ∧
        ev.calibration_item_id = it.id := by
  rw [unratedItems, List.filter_eq_nil_iff]
  constructor
  · intro h it hit
    have h2 := h it hit
    have h3 : it.id ∈ ratedIds db evaluator := by simpa using h2
    obtain ⟨ev, hev, hid⟩ := List.mem_map.mp h3
    obtain ⟨hev2, hev3⟩ := List.mem_filter.mp hev
    exact ⟨ev, hev2, by simpa using hev3, hid⟩
  · intro h it hit
    obtain ⟨ev, hev, heval, hid⟩ := h it hit
    have hmem : it.id ∈ ratedIds db evaluator :=
      List.mem_map.mpr ⟨ev, List.mem_filter.mpr ⟨hev, by simp [heval]⟩, hid⟩
    simpa using hmem

/-! Concrete fixtures used by the witnesses below. -/

/-- A timestamp parser on which every string fails to parse (every call
to the abstract fromisoformat model raises); the empty string in
particular fails, as the real fromisoformat does. -/
def parseTsNone : String → Option Int := fun _ => Option.none

/-- Fixture: a record scored 85 (end-to-end example 1 of the spec). -/
def rec85 : MustReadRecord := { title := "a", relevancy_score := some 85 }

/-- Fixture: a record scored 40 (end-to-end example 1 of the spec). -/
def rec40 : MustReadRecord := { title := "b", relevancy_score := some 40 }

/-- Fixture: a record with a null score (end-to-end example 1 of the
spec). -/
def recNull : MustReadRecord := { title := "c" }

/-! The claims about filter_and_sort_must_reads. -/

/-- C1: on every list of normalized must-read records,
filter_and_sort_must_reads orders the surviving records by relevancy
score descending with a null score treated as -1 (so a record with a
null score never precedes a record with a real score in the range 0 to
100), breaks ties by published date descending where a missing date, an
unparsable date string or a non-string date value is treated as the
epoch (the function is total, so no input raises), and returns at most
the first limit records of that order. -/
theorem mustreads_sorted_desc_limit (parseTs : String → Option Int)
    (items : List MustReadRecord) (min_relevance : Int) (include_zero : Bool) (limit : Nat)
    (hempty : parseTs "" = Option.none) :
    (filter_and_sort_must_reads parseTs items min_relevance include_zero limit).Pairwise
      (fun a b => scoreVal b < scoreVal a ∨
        (scoreVal a = scoreVal b ∧ dateVal parseTs b ≤ dateVal parseTs a)) ∧
    (filter_and_sort_must_reads parseTs items min_relevance include_zero limit).Pairwise
      (fun a b => a.relevancy_score = Option.none →
        ∀ s : Int, b.relevancy_score = some s → ¬(0 ≤ s ∧ s ≤ 100)) ∧
    (∀ r : MustReadRecord, r.published_date = Option.none → dateVal parseTs r = 0) ∧
    (∀ (r : MustReadRecord) (s : String), r.published_date = some (PyVal.pystr s) →
      parseTs (replaceZ s) = Option.none → dateVal parseTs r = 0) ∧
    (∀ (r : MustReadRecord) (v : PyVal), r.published_date = some v →
      (∀ s : String, v ≠ PyVal.pystr s) → dateVal parseTs r = 0) ∧
    (filter_and_sort_must_reads parseTs items min_relevance include_zero limit).length ≤ limit := by
  have hsorted : (filter_and_sort_must_reads parseTs items min_relevance include_zero
      limit).Pairwise (keyLe parseTs) := by
    refine List.Pairwise.sublist (List.take_sublist _ _) ?_
    exact List.sorted_insertionSort (keyLe parseTs) _
  have hdesc : (filter_and_sort_must_reads parseTs items min_relevance include_zero
      limit).Pairwise (fun a b => scoreVal b < scoreVal a ∨
        (scoreVal a = scoreVal b ∧ dateVal parseTs b ≤ dateVal parseTs a)) := by
    refine hsorted.imp ?_
    intro a b h
    unfold keyLe pairLe sortKey at h
    omega
  refine ⟨hdesc, ?_, ?_, ?_, ?_, ?_⟩
  · refine hdesc.imp ?_
    intro a b h ha s hb hs
    simp only [scoreVal, ha, hb, Option.getD_some, Option.getD_none] at h
    omega
  · intro r h
    rw [dateVal, h]
    show (parseTs (replaceZ "")).getD 0 = 0
    rw [show replaceZ "" = "" from rfl, hempty]
    rfl
  · intro r s h hp
    rw [dateVal, h]
    show (parseTs (replaceZ s)).getD 0 = 0
    rw [hp]
    rfl
  · intro r v h hv
    rw [dateVal, h]
    cases v with
    | pystr s => exact absurd rfl (hv s)
    | pynone => rfl
    | pybool b => rfl
    | pyint n => rfl
    | pyfloat f => rfl
    | pylist xs => rfl
    | pydict kvs => rfl
  · exact List.length_take_le limit _

/-- Witness for C1 at concrete inputs: the all-failing parser satisfies
the empty-string hypothesis, and a record with no published date gets
the epoch date value. -/
theorem mustreads_sorted_desc_limit_witness :
    dateVal parseTsNone recNull = 0 ∧
      (filter_and_sort_must_reads parseTsNone [recNull, rec85] 0 true 5).length ≤ 5 := by
  have h := mustreads_sorted_desc_limit parseTsNone [recNull, rec85] 0 true 5 rfl
  exact ⟨h.2.2.1 recNull rfl, h.2.2.2.2.2⟩

/-- C2: with include_zero false, filter_and_sort_must_reads keeps
exactly the records whose relevancy score is non-null and at least
min_relevance: every output record qualifies, the sorted pool is a
permutation of the qualifying records, and when they all fit in the
limit the output is a permutation of exactly the qualifying records.
With include_zero true no record is dropped by the relevancy filter:
the sorted pool is a permutation of the whole input. -/
theorem mustreads_filter_exact (parseTs : String → Option Int)
    (items : List MustReadRecord) (min_relevance : Int) (limit : Nat) :
    (∀ r ∈ filter_and_sort_must_reads parseTs items min_relevance false limit,
      ∃ s : Int, r.relevancy_score = some s ∧ min_relevance ≤ s) ∧
    (sortStep parseTs (items.filter (passesFilter min_relevance)) ~
      items.filter (passesFilter min_relevance)) ∧
    ((items.filter (passesFilter min_relevance)).length ≤ limit →
      filter_and_sort_must_reads parseTs items min_relevance false limit ~
        items.filter (passesFilter min_relevance)) ∧
    (sortStep parseTs items ~ items) ∧
    (items.length ≤ limit →
      filter_and_sort_must_reads parseTs items min_relevance true limit ~ items) := by
  have hperm : sortStep parseTs (items.filter (passesFilter min_relevance)) ~
      items.filter (passesFilter min_relevance) := List.perm_insertionSort _ _
  have hperm2 : sortStep parseTs items ~ items := List.perm_insertionSort _ _
  refine ⟨?_, hperm, ?_, hperm2, ?_⟩
  · intro r hr
    have hr2 : r ∈ sortStep parseTs (items.filter (passesFilter min_relevance)) :=
      List.mem_of_mem_take (by simpa [filter_and_sort_must_reads] using hr)
    have hr3 : r ∈ items.filter (passesFilter min_relevance) := hperm.mem_iff.mp hr2
    have hr4 := (List.mem_filter.mp hr3).2
    rw [passesFilter] at hr4
    cases hs : r.relevancy_score with
    | none => rw [hs] at hr4; exact absurd hr4 (by simp)
    | some s =>
      rw [hs] at hr4
      exact ⟨s, rfl, by simpa using hr4⟩
  · intro hlen
    show (sortStep parseTs (items.filter (passesFilter min_relevance))).take limit ~ _
    rw [List.take_of_length_le (by rw [sortStep, List.length_insertionSort]; exact hlen)]
    exact hperm
  · intro hlen
    show (sortStep parseTs items).take limit ~ _
    rw [List.take_of_length_le (by rw [sortStep, List.length_insertionSort]; exact hlen)]
    exact hperm2

/-- Witness for C2: end-to-end example 1 of the spec.  Seeding records
scored 85, 40 and null and filtering with min_relevance 60 (default
limit 5) returns exactly one record, the 85-scored one. -/
theorem mustreads_filter_exact_witness :
    filter_and_sort_must_reads parseTsNone [rec85, rec40, recNull] 60 false 5 = [rec85] := by
  have h := mustreads_filter_exact parseTsNone [rec85, rec40, recNull] 60 5
  have hflt : [rec85, rec40, recNull].filter (passesFilter 60) = [rec85] := rfl
  have hp := h.2.2.1 (by rw [hflt]; decide)
  rw [hflt] at hp
  exact List.perm_singleton.mp hp

/-- C3: filter_and_sort_must_reads is deterministic: two runs on the
same input are equal; re-sorting an already-sorted output yields the
same order (the composite-key sort is idempotent on its own output);
and the sort is stable, so the tie-break between records with equal
relevancy score and equal date is the records' input order, which is
deterministic and consistent. -/
theorem mustreads_sort_deterministic (parseTs : String → Option Int)
    (items : List MustReadRecord) (min_relevance : Int) (include_zero : Bool) (limit : Nat) :
    (filter_and_sort_must_reads parseTs items min_relevance include_zero limit =
      filter_and_sort_must_reads parseTs items min_relevance include_zero limit) ∧
    (sortStep parseTs (filter_and_sort_must_reads parseTs items min_relevance include_zero
        limit) =
      filter_and_sort_must_reads parseTs items min_relevance include_zero limit) ∧
    (∀ (l : List MustReadRecord) (k : Int × Int),
      (sortStep parseTs l).filter (fun r => decide (sortKey parseTs r = k)) =
        l.filter (fun r => decide (sortKey parseTs r = k))) := by
  refine ⟨rfl, ?_, ?_⟩
  · have hsorted : (filter_and_sort_must_reads parseTs items min_relevance include_zero
        limit).Pairwise (keyLe parseTs) := by
      refine List.Pairwise.sublist (List.take_sublist _ _) ?_
      exact List.sorted_insertionSort (keyLe parseTs) _
    exact List.Sorted.insertionSort_eq hsorted
  · intro l k
    refine filter_insertionSort (keyLe parseTs) _ ?_ l
    intro a b ha hb
    have ha2 : sortKey parseTs a = k := of_decide_eq_true ha
    have hb2 : sortKey parseTs b = k := of_decide_eq_true hb
    unfold keyLe pairLe
    rw [ha2, hb2]
    omega

/-! The claims about normalize_must_read_item. -/

theorem clampScore_parse (pyIntStr : String → Option Int) (v : PyVal) (n : Int)
    (hv : v ≠ PyVal.pynone) (hn : pyToIntE pyIntStr v = Except.ok (some n)) :
    clampScore pyIntStr (withDefault PyVal.pynone (some v)) =
      Except.ok (some (PyVal.pyint (max 0 (min 100 n)))) := by
  rw [clampScore_eval pyIntStr v hv, hn]

theorem clampScore_noparse (pyIntStr : String → Option Int) (v : PyVal)
    (hv : v ≠ PyVal.pynone) (hn : pyToIntE pyIntStr v = Except.ok Option.none) :
    clampScore pyIntStr (withDefault PyVal.pynone (some v)) =
      Except.ok (some PyVal.pynone) := by
  rw [clampScore_eval pyIntStr v hv, hn]

theorem normalizeReason_pystr (s : String) :
    ∃ t, normalizeReason (some (PyVal.pystr s)) = some (PyVal.pystr t) ∧ collapseWs t = t := by
  by_cases h : s = ""
  · subst h
    exact ⟨"", rfl, rfl⟩
  · have ht : pyTruthy (PyVal.pystr s) = true := by simp [pyTruthy, h]
    refine ⟨collapseWs s, ?_, collapseWs_idem s⟩
    simp [normalizeReason, Option.getD, ht, pyStr]

theorem ensureDict_gives_dict (v : Option PyVal) :
    ∃ kvs, ensureDict (withDefault (PyVal.pydict []) v) = some (PyVal.pydict kvs) := by
  cases v with
  | none => exact ⟨[], rfl⟩
  | some x =>
    cases x with
    | pydict kvs => exact ⟨kvs, rfl⟩
    | pynone => exact ⟨[], rfl⟩
    | pybool b => exact ⟨[], rfl⟩
    | pyint n => exact ⟨[], rfl⟩
    | pyfloat f => exact ⟨[], rfl⟩
    | pystr s => exact ⟨[], rfl⟩
    | pylist xs => exact ⟨[], rfl⟩

theorem ensureDict_nondict (v : Option PyVal)
    (h : v = Option.none ∨ ∀ kvs, v ≠ some (PyVal.pydict kvs)) :
    ensureDict (withDefault (PyVal.pydict []) v) = some (PyVal.pydict []) := by
  rcases h with rfl | h
  · rfl
  · cases v with
    | none => rfl
    | some x =>
      cases x with
      | pydict kvs => exact absurd rfl (h kvs)
      | pynone => rfl
      | pybool b => rfl
      | pyint n => rfl
      | pyfloat f => rfl
      | pystr s => rfl
      | pylist xs => rfl

/-- C4 counterexample: an infinite float relevancy score (json.load
accepts the literal Infinity) makes int() raise OverflowError, which
the except clause of the source catches neither as ValueError nor as
TypeError, so normalize_must_read_item raises instead of storing null:
the claim's "becomes null without raising" fails at this input. -/
theorem normalize_item_raises_overflow :
    normalize_must_read_item (fun _ => Option.none)
      { relevancy_score := some (PyVal.pyfloat FloatVal.inf) } =
      Except.error PyExc.overflowError := rfl

/-- C4 as amended: for every input record whose relevancy and
credibility scores are not infinite floats, normalize_must_read_item
returns (without raising) a record with every expected scoring field
present; and whenever the call returns a record: a missing relevancy or
credibility score defaults to null, not zero; a present non-null score
that int() converts is clamped into the range 0 to 100, and one whose
conversion raises ValueError or TypeError becomes null; the output
scores are never outside the range 0 to 100 and never non-null
non-integer; a missing reason becomes the empty string and a string
reason becomes a whitespace-normalized single-line string; and signals
or credibility_signals that are absent or not a dict become the empty
dict.  An infinite float score is the one input class on which the
function raises (OverflowError from int()). -/
theorem normalize_item_field_spec (pyIntStr : String → Option Int) (item : MRItem) :
    ((∀ x, item.relevancy_score = some x →
        x ≠ PyVal.pyfloat FloatVal.inf ∧ x ≠ PyVal.pyfloat FloatVal.negInf) →
     (∀ x, item.credibility_score = some x →
        x ≠ PyVal.pyfloat FloatVal.inf ∧ x ≠ PyVal.pyfloat FloatVal.negInf) →
     ∃ out, normalize_must_read_item pyIntStr item = Except.ok out) ∧
    (∀ out : MRItem, normalize_must_read_item pyIntStr item = Except.ok out →
      (out.relevancy_score.isSome ∧
       out.relevancy_reason.isSome ∧
       out.signals.isSome ∧
       out.credibility_score.isSome ∧
       out.credibility_reason.isSome ∧
       out.credibility_confidence.isSome ∧
       out.credibility_signals.isSome ∧
       out.scored_at.isSome ∧
       out.scoring_version.isSome ∧
       out.scoring_model.isSome) ∧
      (item.relevancy_score = Option.none → out.relevancy_score = some PyVal.pynone) ∧
      (item.credibility_score = Option.none → out.credibility_score = some PyVal.pynone) ∧
      (∀ (v : PyVal) (n : Int), item.relevancy_score = some v → v ≠ PyVal.pynone →
        pyToIntE pyIntStr v = Except.ok (some n) →
        out.relevancy_score = some (PyVal.pyint (max 0 (min 100 n)))) ∧
      (∀ v : PyVal, item.relevancy_score = some v → v ≠ PyVal.pynone →
        pyToIntE pyIntStr v = Except.ok Option.none →
        out.relevancy_score = some PyVal.pynone) ∧
      (out.relevancy_score = some PyVal.pynone ∨
        ∃ n : Int, out.relevancy_score = some (PyVal.pyint n) ∧ 0 ≤ n ∧ n ≤ 100) ∧
      (out.credibility_score = some PyVal.pynone ∨
        ∃ n : Int, out.credibility_score = some (PyVal.pyint n) ∧ 0 ≤ n ∧ n ≤ 100) ∧
      (item.relevancy_reason = Option.none → out.relevancy_reason = some (PyVal.pystr "")) ∧
      (∀ s : String, item.relevancy_reason = some (PyVal.pystr s) →
        ∃ t, out.relevancy_reason = some (PyVal.pystr t) ∧ collapseWs t = t) ∧
      (∀ s : String, item.credibility_reason = some (PyVal.pystr s) →
        ∃ t, out.credibility_reason = some (PyVal.pystr t) ∧ collapseWs t = t) ∧
      (∃ kvs, out.signals = some (PyVal.pydict kvs)) ∧
      (∃ kvs, out.credibility_signals = some (PyVal.pydict kvs)) ∧
      ((item.signals = Option.none ∨ ∀ kvs, item.signals ≠ some (PyVal.pydict kvs)) →
        out.signals = some (PyVal.pydict [])) ∧
      ((item.credibility_signals = Option.none ∨
          ∀ kvs, item.credibility_signals ≠ some (PyVal.pydict kvs)) →
        out.credibility_signals = some (PyVal.pydict []))) := by
  have hreason_some : ∀ v : Option PyVal,
      (normalizeReason (withDefault (PyVal.pystr "") v)).isSome := by
    intro v
    rw [normalizeReason]
    split <;> simp [withDefault]
  constructor
  · intro h1 h2
    obtain ⟨w1, hw1⟩ := clampScore_ok_of_not_inf pyIntStr item.relevancy_score h1
    obtain ⟨w2, hw2⟩ := clampScore_ok_of_not_inf pyIntStr item.credibility_score h2
    simp only [normalize_must_read_item, hw1, hw2]
    exact ⟨_, rfl⟩
  · intro out hout
    cases hr : clampScore pyIntStr (withDefault PyVal.pynone item.relevancy_score) with
    | error e =>
      simp only [normalize_must_read_item, hr] at hout
      exact Except.noConfusion hout
    | ok rsv =>
      cases hc : clampScore pyIntStr (withDefault PyVal.pynone item.credibility_score) with
      | error e =>
        simp only [normalize_must_read_item, hr, hc] at hout
        exact Except.noConfusion hout
      | ok csv =>
        simp only [normalize_must_read_item, hr, hc, Except.ok.injEq] at hout
        subst hout
        have hrshape := clampScore_ok_shape pyIntStr item.relevancy_score rsv hr
        have hcshape := clampScore_ok_shape pyIntStr item.credibility_score csv hc
        refine ⟨?_, ?_, ?_, ?_, ?_, ?_, ?_, ?_, ?_, ?_, ?_, ?_, ?_, ?_⟩
        · refine ⟨?_, hreason_some item.relevancy_reason, ?_, ?_,
            hreason_some item.credibility_reason, rfl, ?_, rfl, rfl, rfl⟩
          · rcases hrshape with h | ⟨n, h⟩ <;> simp [h]
          · obtain ⟨kvs, h⟩ := ensureDict_gives_dict item.signals
            simp [h]
          · rcases hcshape with h | ⟨n, h⟩ <;> simp [h]
          · obtain ⟨kvs, h⟩ := ensureDict_gives_dict item.credibility_signals
            simp [h]
        · intro hm
          rw [hm] at hr
          exact (Except.ok.inj hr).symm
        · intro hm
          rw [hm] at hc
          exact (Except.ok.inj hc).symm
        · intro v n hv hvne hn
          rw [hv, clampScore_parse pyIntStr v n hvne hn] at hr
          exact (Except.ok.inj hr).symm
        · intro v hv hvne hn
          rw [hv, clampScore_noparse pyIntStr v hvne hn] at hr
          exact (Except.ok.inj hr).symm
        · rcases hrshape with h | ⟨n, h⟩
          · exact Or.inl h
          · exact Or.inr ⟨max 0 (min 100 n), h, by omega, by omega⟩
        · rcases hcshape with h | ⟨n, h⟩
          · exact Or.inl h
          · exact Or.inr ⟨max 0 (min 100 n), h, by omega, by omega⟩
        · intro hm
          show normalizeReason (withDefault (PyVal.pystr "") item.relevancy_reason) = _
          rw [hm]
          rfl
        · intro s hs
          show ∃ t, normalizeReason (withDefault (PyVal.pystr "") item.relevancy_reason) =
            some (PyVal.pystr t) ∧ collapseWs t = t
          rw [hs]
          exact normalizeReason_pystr s
        · intro s hs
          show ∃ t, normalizeReason (withDefault (PyVal.pystr "") item.credibility_reason) =
            some (PyVal.pystr t) ∧ collapseWs t = t
          rw [hs]
          exact normalizeReason_pystr s
        · exact ensureDict_gives_dict item.signals
        · exact ensureDict_gives_dict item.credibility_signals
        · exact ensureDict_nondict item.signals
        · exact ensureDict_nondict item.credibility_signals

/-- Fixture: a string-int parser that recognises the one numeral the
witness record uses (the string parse of int() is abstract; any
instance may be chosen). -/
def intStr150 : String → Option Int :=
  fun s => if s = "150" then some 150 else Option.none

/-- Fixture: an item with an out-of-range string score, a noisy reason
text, a None signals value and no credibility fields. -/
def itemMessy : MRItem :=
  { relevancy_score := some (PyVal.pystr "150")
    relevancy_reason := some (PyVal.pystr "  too   many\n spaces ")
    signals := some PyVal.pynone }

/-- Fixture: the record normalize_must_read_item returns for
itemMessy. -/
def itemMessyNorm : MRItem :=
  { relevancy_score := some (PyVal.pyint 100)
    relevancy_reason := some (PyVal.pystr "too many spaces")
    signals := some (PyVal.pydict [])
    credibility_score := some PyVal.pynone
    credibility_reason := some (PyVal.pystr "")
    credibility_confidence := some PyVal.pynone
    credibility_signals := some (PyVal.pydict [])
    scored_at := some PyVal.pynone
    scoring_version := some (PyVal.pystr "poc_v1")
    scoring_model := some PyVal.pynone }

/-- Witness for C4 as amended, at a concrete record: the call returns
a record; the string score 150 parses and clamps to 100, the missing
credibility score defaults to null, and the None-valued signals entry
becomes the empty dict. -/
theorem normalize_item_field_spec_witness :
    normalize_must_read_item intStr150 itemMessy = Except.ok itemMessyNorm ∧
    itemMessyNorm.relevancy_score = some (PyVal.pyint 100) ∧
    itemMessyNorm.credibility_score = some PyVal.pynone ∧
    itemMessyNorm.signals = some (PyVal.pydict []) := by
  have h := (normalize_item_field_spec intStr150 itemMessy).2 itemMessyNorm rfl
  refine ⟨rfl, ?_, h.2.2.1 rfl, ?_⟩
  · have hparse : pyToIntE intStr150 (PyVal.pystr "150") = Except.ok (some 150) := rfl
    have h2 := h.2.2.2.1 (PyVal.pystr "150") 150 rfl (by simp) hparse
    have h3 : max (0 : Int) (min 100 150) = 100 := by decide
    rw [h2, h3]
  · exact h.2.2.2.2.2.2.2.2.2.2.2.2.1 (Or.inr (fun kvs hk => by simp [itemMessy] at hk))

/-- Fixture: the record normalize_must_read_item returns for the empty
record. -/
def itemEmptyNorm : MRItem :=
  { relevancy_score := some PyVal.pynone
    relevancy_reason := some (PyVal.pystr "")
    signals := some (PyVal.pydict [])
    credibility_score := some PyVal.pynone
    credibility_reason := some (PyVal.pystr "")
    credibility_confidence := some PyVal.pynone
    credibility_signals := some (PyVal.pydict [])
    scored_at := some PyVal.pynone
    scoring_version := some (PyVal.pystr "poc_v1")
    scoring_model := some PyVal.pynone }

/-- C5 counterexample: normalize_must_read_item updates its argument
dictionary in place and returns the same object, so after a completed
call the caller's record holds the function's result; the function is
therefore mutation-free only if a completed call returns its argument
unchanged.  It does not: on the empty record it installs the default
fields (here, scoring_version gains the value poc_v1), so the argument
is mutated. -/
theorem normalize_item_mutates_argument :
    normalize_must_read_item (fun _ => Option.none) ({} : MRItem) ≠
      Except.ok ({} : MRItem) := by
  intro h
  have h1 : normalize_must_read_item (fun _ => Option.none) ({} : MRItem) =
      Except.ok itemEmptyNorm := rfl
  rw [h1] at h
  have h2 := congrArg MRItem.scoring_version (Except.ok.inj h)
  simp [itemEmptyNorm] at h2

/-- C5 as amended: normalize_must_read_item is a deterministic function
of its argument and is idempotent — whenever a call returns a record,
normalizing that already-normalized record is a no-op — but it does
mutate its argument in place (see the counterexample), so it is not
pure in the no-mutation sense. -/
theorem normalize_item_idempotent (pyIntStr : String → Option Int) (item out : MRItem)
    (h : normalize_must_read_item pyIntStr item = Except.ok out) :
    normalize_must_read_item pyIntStr out = Except.ok out := by
  cases hr : clampScore pyIntStr (withDefault PyVal.pynone item.relevancy_score) with
  | error e =>
    simp only [normalize_must_read_item, hr] at h
    exact Except.noConfusion h
  | ok rsv =>
    cases hc : clampScore pyIntStr (withDefault PyVal.pynone item.credibility_score) with
    | error e =>
      simp only [normalize_must_read_item, hr, hc] at h
      exact Except.noConfusion h
    | ok csv =>
      simp only [normalize_must_read_item, hr, hc, Except.ok.injEq] at h
      subst h
      have hr2 := clampScore_again pyIntStr rsv
        (clampScore_ok_shape pyIntStr item.relevancy_score rsv hr)
      have hc2 := clampScore_again pyIntStr csv
        (clampScore_ok_shape pyIntStr item.credibility_score csv hc)
      simp only [normalize_must_read_item, hr2, hc2]
      rw [normalizeReason_step_idem item.relevancy_reason,
        normalizeReason_step_idem item.credibility_reason,
        ensureDict_step_idem item.signals,
        ensureDict_step_idem item.credibility_signals,
        withDefault_again PyVal.pynone item.credibility_confidence,
        withDefault_again PyVal.pynone item.scored_at,
        withDefault_again (PyVal.pystr "poc_v1") item.scoring_version,
        withDefault_again PyVal.pynone item.scoring_model]

/-- Witness for C5 as amended: the hypothesis holds at the empty record
(its normalization completes), and re-normalizing the result returns it
unchanged. -/
theorem normalize_item_idempotent_witness :
    normalize_must_read_item (fun _ => Option.none) itemEmptyNorm =
      Except.ok itemEmptyNorm :=
  normalize_item_idempotent (fun _ => Option.none) ({} : MRItem) itemEmptyNorm rfl


/-! The claims about the calibration endpoints. -/

theorem get_next_item_mem_base (pick : List CalItem → Option CalItem) (db : DBState)
    (evaluator : String) (strategy : Strategy) (it : CalItem) (hpick : PickSound pick)
    (h : get_next_item pick db evaluator strategy = some it) :
    it ∈ unratedItems db evaluator := by
  cases strategy with
  | random => exact hpick.1 _ _ h
  | gold_first =>
    rw [get_next_item] at h
    cases hg : pick ((unratedItems db evaluator).filter (fun it => it.isGold)) with
    | some x =>
      rw [hg] at h
      cases h
      exact List.mem_of_mem_filter (hpick.1 _ _ hg)
    | none =>
      rw [hg] at h
      exact hpick.1 _ _ h
  | balanced =>
    rw [get_next_item] at h
    cases hf : balancedBuckets.findSome?
        (fun b => pick ((unratedItems db evaluator).filter (inBucket b))) with
    | some x =>
      rw [hf] at h
      cases h
      obtain ⟨b, hb, hpb⟩ := List.exists_of_findSome?_eq_some hf
      exact List.mem_of_mem_filter (hpick.1 _ _ hpb)
    | none =>
      rw [hf] at h
      cases hn : pick ((unratedItems db evaluator).filter
          (fun it => it.final_relevancy_score.isNone)) with
      | some x =>
        rw [hn] at h
        cases h
        exact List.mem_of_mem_filter (hpick.1 _ _ hn)
      | none =>
        rw [hn] at h
        exact hpick.1 _ _ h

/-- C6: under every strategy, GET /calibration/next never returns an
item the evaluator has already submitted a HumanEvaluation for: the
rated identifiers are recomputed from the current evaluation table on
each call and removed from the pool before any strategy-specific
choice, so every returned item is unrated by that evaluator. -/
theorem calibration_next_excludes_rated (pick : List CalItem → Option CalItem)
    (db : DBState) (evaluator : String) (strategy : Strategy) (it : CalItem)
    (hpick : PickSound pick) (hres : get_next_item pick db evaluator strategy = some it) :
    ∀ ev ∈ db.evals, ev.evaluator = evaluator → ev.calibration_item_id ≠ it.id :=
  (mem_unratedItems (get_next_item_mem_base pick db evaluator strategy it hpick hres)).2

/-- Fixture: a deterministic sound choice function, picking the head of
the queried row list. -/
def pickHead : List CalItem → Option CalItem := fun l => l.head?

theorem pickHead_sound : PickSound pickHead := by
  constructor
  · intro l x h
    cases l with
    | nil => exact Option.noConfusion h
    | cons a l =>
      simp only [pickHead, List.head?_cons, Option.some.injEq] at h
      subst h
      exact List.mem_cons_self a l
  · intro l
    cases l with
    | nil => simp [pickHead]
    | cons a l => simp [pickHead]

/-- Fixture: two calibration items. -/
def itemOne : CalItem := { id := 1, final_relevancy_score := some 85 }

/-- Fixture: a second calibration item with no score. -/
def itemTwo : CalItem := { id := 2 }

/-- Fixture: alice has already rated item 1. -/
def evalAliceOne : HumanEval :=
  { calibration_item_id := 1, evaluator := "alice", human_score := 90, reasoning := "good" }

/-- Fixture: a database with two items and one evaluation by alice. -/
def dbTwoItems : DBState := { items := [itemOne, itemTwo], evals := [evalAliceOne] }

/-- Witness for C6 at a concrete state: with item 1 already rated by
alice, the next call returns item 2, and the recorded evaluation is not
for the returned item. -/
theorem calibration_next_excludes_rated_witness :
    get_next_item pickHead dbTwoItems "alice" Strategy.random = some itemTwo ∧
      evalAliceOne.calibration_item_id ≠ itemTwo.id := by
  refine ⟨rfl, ?_⟩
  exact calibration_next_excludes_rated pickHead dbTwoItems "alice" Strategy.random itemTwo
    pickHead_sound rfl evalAliceOne (List.mem_cons_self _ _) rfl

/-- C7 counterexample: the calibration score column is a nullable
Float, so a score strictly between 100 and 101 is schema-admissible.
halfway is the rational 100.5, an exactly representable double.  The
source's fifth bucket is the half-open [80,101), so the balanced
strategy returns the 100.5-scored item from the bucket scan, while the
claim's buckets end at [80,100] inclusive, under which every bucket is
empty and the null-score fallback returns the other item: the claimed
bucket boundary is wrong at this state. -/
def halfway : ℚ := ⟨201, 2, by decide, by decide⟩

/-- Fixture: an unrated item scored 100.5. -/
def itemHalf : CalItem := { id := 3, final_relevancy_score := some halfway }

/-- Fixture: an unrated item with a null score. -/
def itemNoScore : CalItem := { id := 4 }

/-- Fixture: a database holding the 100.5-scored item and the
null-scored item, with no evaluations. -/
def dbHalf : DBState := { items := [itemHalf, itemNoScore], evals := [] }

/-- C7 counterexample theorem: at dbHalf the code's balanced strategy
and the claim's bucket rules disagree — the code returns the
100.5-scored item, the claimed [80,100] top bucket misses it and falls
through to the null-score fallback. -/
theorem calibration_balanced_top_bucket_mismatch :
    get_next_item pickHead dbHalf "eve" Strategy.balanced = some itemHalf ∧
      balancedSpecClaim pickHead dbHalf "eve" = some itemNoScore := by
  exact ⟨rfl, rfl⟩

/-- C7 as amended: the balanced strategy equals the five-bucket
specification with the top bucket read as the half-open [80,101) of the
source: it scans the buckets [0,20), [20,40), [40,60), [60,80) and
[80,101) in that fixed order and returns a random unrated item of the
first nonempty bucket, then falls back to a random unrated null-scored
item, then to any remaining unrated item; it returns none exactly when
the evaluator has rated every item; and whenever every stored score is
at most 100 (the documented score range) the amended top bucket
coincides with the claimed [80,100]. -/
theorem calibration_balanced_buckets (pick : List CalItem → Option CalItem)
    (db : DBState) (evaluator : String) (hpick : PickSound pick) :
    get_next_item pick db evaluator Strategy.balanced = balancedSpec pick db evaluator ∧
    (get_next_item pick db evaluator Strategy.balanced = Option.none ↔
      ∀ it ∈ db.items, ∃ ev ∈ db.evals, ev.evaluator = evaluator ∧
        ev.calibration_item_id = it.id) ∧
    ((∀ it ∈ db.items, ∀ q : ℚ, it.final_relevancy_score = some q → q ≤ 100) →
      balancedSpec pick db evaluator = balancedSpecClaim pick db evaluator) := by
  have hb1 : ∀ it : CalItem, inBucket (0, 20) it =
      (it.final_relevancy_score.map (fun s => decide (0 ≤ s ∧ s < 20))).getD false := by
    intro it
    cases h : it.final_relevancy_score <;> simp [inBucket, h]
  have hb2 : ∀ it : CalItem, inBucket (20, 40) it =
      (it.final_relevancy_score.map (fun s => decide (20 ≤ s ∧ s < 40))).getD false := by
    intro it
    cases h : it.final_relevancy_score <;> simp [inBucket, h]
  have hb3 : ∀ it : CalItem, inBucket (40, 60) it =
      (it.final_relevancy_score.map (fun s => decide (40 ≤ s ∧ s < 60))).getD false := by
    intro it
    cases h : it.final_relevancy_score <;> simp [inBucket, h]
  have hb4 : ∀ it : CalItem, inBucket (60, 80) it =
      (it.final_relevancy_score.map (fun s => decide (60 ≤ s ∧ s < 80))).getD false := by
    intro it
    cases h : it.final_relevancy_score <;> simp [inBucket, h]
  have hb5 : ∀ it : CalItem, inBucket (80, 101) it =
      (it.final_relevancy_score.map (fun s => decide (80 ≤ s ∧ s < 101))).getD false := by
    intro it
    cases h : it.final_relevancy_score <;> simp [inBucket, h]
  have heq : get_next_item pick db evaluator Strategy.balanced =
      balancedSpec pick db evaluator := by
    rw [get_next_item, balancedSpec, balancedBuckets]
    simp only [List.findSome?_cons, List.findSome?_nil]
    rw [List.filter_congr (fun it _ => hb1 it), List.filter_congr (fun it _ => hb2 it),
      List.filter_congr (fun it _ => hb3 it), List.filter_congr (fun it _ => hb4 it),
      List.filter_congr (fun it _ => hb5 it)]
  refine ⟨heq, ?_, ?_⟩
  · have hnone : get_next_item pick db evaluator Strategy.balanced = Option.none ↔
        unratedItems db evaluator = [] := by
      constructor
      · intro h
        rw [get_next_item] at h
        cases hf : balancedBuckets.findSome?
            (fun b => pick ((unratedItems db evaluator).filter (inBucket b))) with
        | some x => rw [hf] at h; exact Option.noConfusion h
        | none =>
          rw [hf] at h
          cases hn : pick ((unratedItems db evaluator).filter
              (fun it => it.final_relevancy_score.isNone)) with
          | some x => rw [hn] at h; exact Option.noConfusion h
          | none =>
            rw [hn] at h
            exact (hpick.2 _).mp h
      · intro h
        have hpe : pick ([] : List CalItem) = Option.none := (hpick.2 []).mpr rfl
        rw [get_next_item, h]
        simp only [List.filter_nil, hpe, balancedBuckets, List.findSome?_cons,
          List.findSome?_nil]
    rw [hnone]
    exact unratedItems_eq_nil_iff db evaluator
  · intro hbound
    rw [balancedSpec, balancedSpecClaim]
    simp only [List.findSome?_cons, List.findSome?_nil]
    have h5 : (unratedItems db evaluator).filter
        (fun it => (it.final_relevancy_score.map (fun s => decide (80 ≤ s ∧ s < 101))).getD false) =
      (unratedItems db evaluator).filter
        (fun it => (it.final_relevancy_score.map (fun s => decide (80 ≤ s ∧ s ≤ 100))).getD false) := by
      refine List.filter_congr ?_
      intro it hit
      cases hq : it.final_relevancy_score with
      | none => rfl
      | some q =>
        simp only [hq, Option.map_some', Option.getD_some]
        refine decide_eq_decide.mpr ?_
        have hb := hbound it (List.mem_of_mem_filter hit) q hq
        constructor
        · rintro ⟨hx, _⟩
          exact ⟨hx, hb⟩
        · rintro ⟨hx, hy⟩
          exact ⟨hx, lt_of_le_of_lt hy (by norm_num)⟩
    rw [h5]

/-- Witness for C7 as amended, at a concrete state: the balanced
strategy agrees with the amended bucket specification and does not
return none while an unrated item remains. -/
theorem calibration_balanced_buckets_witness :
    get_next_item pickHead dbTwoItems "alice" Strategy.balanced =
      balancedSpec pickHead dbTwoItems "alice" ∧
    get_next_item pickHead dbTwoItems "alice" Strategy.balanced = some itemTwo := by
  refine ⟨(calibration_balanced_buckets pickHead dbTwoItems "alice" pickHead_sound).1, rfl⟩


/-- C8: POST /calibration/submit fails with 404 when no item has the
given identifier and with 409 when the evaluator already rated the item
(leaving the existing evaluation in place); in both failure cases the
database state is unchanged, so no evaluation row is stored; on success
exactly one new evaluation row is appended and the llm_score of the
found item is returned; and the per-(item, evaluator) uniqueness
invariant of the database constraint is preserved, so duplicates are
rejected rather than overwritten. -/
theorem calibration_submit_contract (parseUUID : String → Option Nat) (db : DBState)
    (req : SubmitRequest) (uid : Nat)
    (hparse : parseUUID req.calibration_item_id = some uid) :
    ((∀ it ∈ db.items, it.id ≠ uid) →
      submit_evaluation parseUUID db req = (Except.error SubmitError.notFound, db)) ∧
    ((∃ it ∈ db.items, it.id = uid) →
      (∃ ev ∈ db.evals, ev.calibration_item_id = uid ∧ ev.evaluator = req.evaluator) →
      submit_evaluation parseUUID db req = (Except.error SubmitError.conflict, db)) ∧
    (∀ it : CalItem, db.items.find? (fun i => i.id == uid) = some it →
      (∀ ev ∈ db.evals, ¬(ev.calibration_item_id = uid ∧ ev.evaluator = req.evaluator)) →
      submit_evaluation parseUUID db req =
        (Except.ok it.final_relevancy_score,
          { db with evals := db.evals ++
            [{ calibration_item_id := uid, evaluator := req.evaluator,
               human_score := req.human_score, reasoning := req.reasoning,
               confidence := req.confidence }] })) ∧
    (EvalsUnique db.evals → EvalsUnique (submit_evaluation parseUUID db req).2.evals) := by
  refine ⟨?_, ?_, ?_, ?_⟩
  · intro h
    have hfind : db.items.find? (fun i => i.id == uid) = Option.none := by
      rw [List.find?_eq_none]
      intro it hit
      simp [h it hit]
    simp only [submit_evaluation, hparse, hfind]
  · intro ⟨it, hit, hid⟩ ⟨ev, hev, hev1, hev2⟩
    have hfind : (db.items.find? (fun i => i.id == uid)).isSome := by
      rw [List.find?_isSome]
      exact ⟨it, hit, by simp [hid]⟩
    obtain ⟨it2, hit2⟩ := Option.isSome_iff_exists.mp hfind
    have hfind2 : (db.evals.find? (fun e =>
        e.calibration_item_id == uid && e.evaluator == req.evaluator)).isSome := by
      rw [List.find?_isSome]
      exact ⟨ev, hev, by simp [hev1, hev2]⟩
    obtain ⟨ev2, hev2b⟩ := Option.isSome_iff_exists.mp hfind2
    simp only [submit_evaluation, hparse, hit2, hev2b]
  · intro it hfind hnone
    have hfind2 : db.evals.find? (fun e =>
        e.calibration_item_id == uid && e.evaluator == req.evaluator) = Option.none := by
      rw [List.find?_eq_none]
      intro ev hev
      have := hnone ev hev
      simp only [Bool.and_eq_true, beq_iff_eq]
      intro ⟨h1, h2⟩
      exact this ⟨h1, h2⟩
    simp only [submit_evaluation, hparse, hfind, hfind2]
  · intro huniq
    cases hfind : db.items.find? (fun i => i.id == uid) with
    | none =>
      simp only [submit_evaluation, hparse, hfind]
      exact huniq
    | some it =>
      cases hfind2 : db.evals.find? (fun e =>
          e.calibration_item_id == uid && e.evaluator == req.evaluator) with
      | some ev =>
        simp only [submit_evaluation, hparse, hfind, hfind2]
        exact huniq
      | none =>
        simp only [submit_evaluation, hparse, hfind, hfind2]
        rw [EvalsUnique, List.pairwise_append]
        refine ⟨huniq, List.pairwise_singleton _ _, ?_⟩
        intro e1 he1 e2 he2
        rw [List.mem_singleton] at he2
        subst he2
        have h3 := List.find?_eq_none.mp hfind2 e1 he1
        simp only [Bool.and_eq_true, beq_iff_eq, not_and] at h3
        intro ⟨h1, h2⟩
        exact h3 h1 h2

/-- Fixture: a UUID parser recognising one identifier string. -/
def parseUuidOne : String → Option Nat :=
  fun s => if s = "00000000-0000-0000-0000-000000000001" then some 1 else Option.none

/-- Fixture: a database holding item 1 and no evaluations. -/
def dbOneItem : DBState := { items := [itemOne], evals := [] }

/-- Fixture: a submit request by bob for item 1. -/
def reqBobOne : SubmitRequest :=
  { calibration_item_id := "00000000-0000-0000-0000-000000000001"
    evaluator := "bob", human_score := 50, reasoning := "fine" }

/-- Fixture: the evaluation row that the successful submit stores. -/
def evalBobOne : HumanEval :=
  { calibration_item_id := 1, evaluator := "bob", human_score := 50, reasoning := "fine" }

/-- Witness for C8 at a concrete state: submitting a first rating for
an existing item succeeds, returns the stored llm_score and appends
exactly the one new evaluation row. -/
theorem calibration_submit_contract_witness :
    submit_evaluation parseUuidOne dbOneItem reqBobOne =
      (Except.ok (some 85), { items := [itemOne], evals := [evalBobOne] }) := by
  have h := (calibration_submit_contract parseUuidOne dbOneItem reqBobOne 1 rfl).2.2.1
  have h2 := h itemOne rfl (by intro ev hev; simp [dbOneItem] at hev)
  simpa [dbOneItem, itemOne, reqBobOne, evalBobOne] using h2

/-- C10: a POST /calibration/submit request whose calibration_item_id
does not parse as a UUID is rejected with the 400 invalid-format error
for every database state, leaving the state unchanged (so the rejection
precedes any lookup and nothing is stored), and the 404 not-found
outcome is only reachable when the identifier parses as a UUID. -/
theorem calibration_submit_uuid_guard (parseUUID : String → Option Nat) (db : DBState)
    (req : SubmitRequest) :
    (parseUUID req.calibration_item_id = Option.none →
      submit_evaluation parseUUID db req =
        (Except.error SubmitError.invalidFormat, db)) ∧
    ((submit_evaluation parseUUID db req).1 = Except.error SubmitError.notFound →
      ∃ uid : Nat, parseUUID req.calibration_item_id = some uid) := by
  constructor
  · intro h
    rw [submit_evaluation, h]
  · intro h
    cases hp : parseUUID req.calibration_item_id with
    | some uid => exact ⟨uid, rfl⟩
    | none =>
      rw [submit_evaluation, hp] at h
      exact absurd h (by simp)

/-- Fixture: a UUID parser rejecting every string, as the UUID
constructor does on malformed input. -/
def parseUuidNever : String → Option Nat := fun _ => Option.none

/-- Witness for C10 at a concrete state: a malformed identifier is
rejected with the invalid-format error and the database is returned
unchanged. -/
theorem calibration_submit_uuid_guard_witness :
    submit_evaluation parseUuidNever dbOneItem reqBobOne =
      (Except.error SubmitError.invalidFormat, dbOneItem) :=
  (calibration_submit_uuid_guard parseUuidNever dbOneItem reqBobOne).1 rfl

/-! The claim about the embeddings batch helpers. -/

/-- Fixture: a well-behaved provider that embeds every submitted text
to the vector 0 and returns its response in submission order with the
matching indices (so its response is a permutation of the enumerated
embeddings, as the amended theorem requires). -/
def respondEnum : List String → List (Nat × Nat) :=
  fun l => List.enum (l.map (fun _ => 0))

/-- C9 counterexample: generate_embeddings_batch drops texts that are
empty after stripping, so for the 2-text batch consisting of the text a
and a blank text it returns one vector, not two: the returned vector
list does not have length N for every batch of N input texts. -/
theorem embeddings_batch_drops_blank :
    generate_embeddings_batch ["a", " "] respondEnum = Except.ok [0] ∧
      ([0] : List Nat).length ≠ (["a", " "] : List String).length := by
  exact ⟨rfl, by decide⟩

/-- C9 as amended: for every batch of texts that are nonblank after
stripping, and every provider response that is a permutation (any
reordering) of the index-tagged embeddings of the submitted texts,
generate_embeddings_batch returns the ok list whose i-th vector is the
embedding of the i-th input text (stripped) — in particular the list
has length N — because the response items are sorted by their
provider-returned index; and chunk_texts_for_batching splits any item
list into batches of size at most the (positive) bounded batch size
whose concatenation is the input list. -/
theorem embeddings_batch_order_chunks {V : Type} (texts : List String) (embed : String → V)
    (respond : List String → List (Nat × V))
    (items : List (String × String)) (max_batch_size : Nat)
    (hall : ∀ t ∈ texts, pyStrip t ≠ "")
    (hresp : respond (texts.map (fun t => pyStrip t)) ~
      List.enum ((texts.map (fun t => pyStrip t)).map embed))
    (hmax : 1 ≤ max_batch_size) :
    generate_embeddings_batch texts respond =
      Except.ok (texts.map (fun t => embed (pyStrip t))) ∧
    (∀ b ∈ chunk_texts_for_batching items max_batch_size, b.length ≤ max_batch_size) ∧
    (chunk_texts_for_batching items max_batch_size).flatten = items := by
  have hsize := chunkStep_fold_size max_batch_size hmax items ([], [])
    (by intro b hb; exact absurd hb (List.not_mem_nil b)) (by simpa using hmax)
  have hjoin := chunkStep_fold_join max_batch_size items ([], [])
  refine ⟨?_, ?_, ?_⟩
  · cases htexts : texts with
    | nil =>
      subst htexts
      rfl
    | cons t0 ts =>
      subst htexts
      have hfilter : (t0 :: ts).filter (fun t => t != "" && pyStrip t != "") = t0 :: ts := by
        rw [List.filter_eq_self]
        intro t ht
        have h1 : pyStrip t ≠ "" := hall t ht
        have h2 : t ≠ "" := by
          intro h
          exact h1 (by rw [h]; rfl)
        simp [h1, h2]
      have hne : ((t0 :: ts).map (fun t => pyStrip t)).isEmpty = false := rfl
      rw [generate_embeddings_batch]
      simp only [List.isEmpty_cons, Bool.false_eq_true, if_false, hfilter, hne,
        insertionSort_index_of_perm_enum _ _ hresp, List.enum_map_snd, List.map_map]
      rfl
  · intro b hb
    rw [chunk_texts_for_batching] at hb
    by_cases hemp : (items.foldl (chunkStep max_batch_size) ([], [])).2.isEmpty
    · rw [if_pos hemp] at hb
      exact hsize.1 b hb
    · rw [if_neg hemp] at hb
      rcases List.mem_append.mp hb with hb | hb
      · exact hsize.1 b hb
      · have hb2 : b = (items.foldl (chunkStep max_batch_size) ([], [])).2 := by simpa using hb
        subst hb2
        exact Nat.le_of_lt hsize.2
  · rw [chunk_texts_for_batching]
    by_cases hemp : (items.foldl (chunkStep max_batch_size) ([], [])).2.isEmpty
    · rw [if_pos hemp]
      have h2 : (items.foldl (chunkStep max_batch_size) ([], [])).2 = [] :=
        List.isEmpty_iff.mp hemp
      rw [h2, List.append_nil] at hjoin
      simpa using hjoin
    · rw [if_neg hemp]
      rw [List.flatten_append]
      simpa using hjoin

/-- Witness for C9 as amended, at concrete inputs: two nonblank texts
with the order-preserving provider fixture give two vectors in input
order, and chunking a one-item list with batch size 2 concatenates back
to the input. -/
theorem embeddings_batch_order_chunks_witness :
    generate_embeddings_batch ["a", "b"] respondEnum = Except.ok [0, 0] ∧
      (chunk_texts_for_batching [("i1", "t1")] 2).flatten = [("i1", "t1")] := by
  have h := embeddings_batch_order_chunks ["a", "b"] (fun _ => (0 : Nat)) respondEnum
    [("i1", "t1")] 2 (by decide) (List.Perm.refl _) (by decide)
  exact ⟨h.1, h.2.2⟩

end AciTrack
